import Mathlib

/-!
# Verification of the wabi.js polygon-generation core

Shallow embedding of the seeded RNG (`src/utils/random.js`), corner generator
(`src/core/corners.js`), edge-point inserter (`src/core/edges.js`) and polygon
assembler (`src/core/polygon.js`) of wabi.js, together with proofs about the
testable properties stated for the polygon core.

Modelling conventions:
* JavaScript numbers are modelled as `Option ℚ`: `some q` is an ordinary
  (finite) number, `none` is `NaN`.  The only arithmetic operation in the core
  that can produce a non-finite value from finite operands is the division by
  the edge length in `generateEdgePoints` (`0/0` when the edge has length
  zero), so division maps a zero divisor to `none` and every operation
  propagates `none`, exactly as `NaN` propagates in JavaScript.
* `Math.sqrt` is modelled by a parameter `sqrtFn : ℚ → ℚ`; the only value of
  `Math.sqrt` the verified properties depend on is `Math.sqrt 0 = 0` (point
  counts, RNG accounting and clamp bands are independent of the magnitude of
  the perpendicular offset).  Concrete instantiations use `sqrtStub`.
* The mutable RNG closure is modelled by explicit state passing: an `Rng`
  carries the infinite output stream together with the index of the next
  output.  The seeded `mulberry32` stream is computed exactly, over the
  32-bit wraparound arithmetic of the JavaScript source; `Math.random` (used
  when `seed` is `null`) is an arbitrary oracle stream.
* The configuration record carries the fields with the domains declared by
  the library (`edges.points` is a non-negative integer, so it is a `Nat`;
  `cutCorners` is an `Int` so that out-of-range negative values can be
  analysed; the corner-cut fraction keeps the `cornerInset` name used by
  `src/core/polygon.js` — the bundled variant calls the same field
  `cornerChamfer`).
-/

namespace Wabi

/-- A JavaScript number as reachable in the polygon core: `some q` is a finite
number (idealised as a rational), `none` is `NaN`. -/
abbrev JsNum := Option ℚ

/-- JavaScript `+` on numbers (`NaN` propagates). -/
def jadd : JsNum → JsNum → JsNum
  | some a, some b => some (a + b)
  | _, _ => none

/-- JavaScript `-` on numbers (`NaN` propagates). -/
def jsub : JsNum → JsNum → JsNum
  | some a, some b => some (a - b)
  | _, _ => none

/-- JavaScript `*` on numbers (`NaN` propagates). -/
def jmul : JsNum → JsNum → JsNum
  | some a, some b => some (a * b)
  | _, _ => none

/-- JavaScript unary `-` (`NaN` propagates). -/
def jneg : JsNum → JsNum
  | some a => some (-a)
  | none => none

/-- JavaScript `/` on numbers.  A zero divisor yields `none`: in the core the
only division whose divisor can be zero is the division by the edge length,
and there the dividend is zero as well, so the JavaScript result is `0/0 =
NaN`. -/
def jdiv : JsNum → JsNum → JsNum
  | some a, some b => if b = 0 then none else some (a / b)
  | _, _ => none

/-- JavaScript `Math.max` on two numbers (`NaN` propagates).  Written with
an explicit comparison (definitionally `max`, see `jmax_some`) so that it
evaluates by kernel reduction. -/
def jmax : JsNum → JsNum → JsNum
  | some a, some b => some (if a ≤ b then b else a)
  | _, _ => none

/-- JavaScript `Math.min` on two numbers (`NaN` propagates); explicit
comparison as in `jmax`. -/
def jmin : JsNum → JsNum → JsNum
  | some a, some b => some (if a ≤ b then a else b)
  | _, _ => none

/-- JavaScript `Math.sqrt`, abstracted by a model `sqrtFn` of the square root
on non-negative rationals (`NaN` on negative arguments and on `NaN`). -/
def jsqrt (sqrtFn : ℚ → ℚ) : JsNum → JsNum
  | some a => if a < 0 then none else some (sqrtFn a)
  | none => none

/-- A concrete admissible model of `Math.sqrt`: it agrees with the real square
root at `0`, which is the only input whose exact image the verified
properties depend on. -/
def sqrtStub (q : ℚ) : ℚ := if q ≤ 0 then 0 else 1

/-- A 2D point, as produced by the polygon core. -/
structure Point where
  x : JsNum
  y : JsNum
deriving DecidableEq

/-- Default point used for (always in-range) list indexing. -/
def dfltPt : Point := ⟨none, none⟩

/-- The state of a random generator: the infinite output stream together with
the index of the next output.  Calling the JavaScript closure returns
`stream idx` and bumps `idx`. -/
structure Rng where
  stream : Nat → ℚ
  idx : Nat

/-- One call of the RNG closure. -/
def rngNext (r : Rng) : ℚ × Rng := (r.stream r.idx, ⟨r.stream, r.idx + 1⟩)

/-- The RNG state after `n` further calls. -/
def rngAdvance (r : Rng) (n : Nat) : Rng := ⟨r.stream, r.idx + n⟩

/-- Model of `Math.imul`: the low 32 bits of the product. -/
def imul32 (a b : Nat) : Nat := (a * b) % 4294967296

/-- The mulberry32 mixing function of `createRNG` (`src/utils/random.js`),
acting on the 32-bit residue of the incremented seed:
`t = Math.imul(t ^ (t >>> 15), t | 1); t ^= t + Math.imul(t ^ (t >>> 7),
t | 61); return ((t ^ (t >>> 14)) >>> 0)`.  All JavaScript bitwise
operations coerce to 32 bits, which is the explicit `% 4294967296` here;
signed versus unsigned readings agree modulo `2^32`. -/
def mulberry32Mix (t0 : Nat) : Nat :=
  let t1 := imul32 (t0 ^^^ (t0 >>> 15)) (t0 ||| 1)
  let t2 := t1 ^^^ ((t1 + imul32 (t1 ^^^ (t1 >>> 7)) (t1 ||| 61)) % 4294967296)
  (t2 ^^^ (t2 >>> 14)) % 4294967296

/-- The `n`-th output (0-based) of `createRNG seed`: the stored seed after
`n + 1` increments by the odd constant `0x6D2B79F5 = 1831565813` is
`seed + (n+1) * 1831565813`; only its residue mod `2^32` enters the mixing,
and the result is normalised to `[0, 1)` by dividing by `2^32`. -/
def mulberry32 (seed : Int) (n : Nat) : ℚ :=
  (mulberry32Mix ((seed + ((n : Int) + 1) * 1831565813) % 4294967296).toNat : ℚ) / 4294967296

/-- Embedding of `getRNG` (`src/utils/random.js`): a `null`/absent seed selects
`Math.random`, modelled as an arbitrary oracle stream; an integer seed
selects the seeded mulberry32 generator. -/
def getRNG (seed : Option Int) (mathRandom : Nat → ℚ) : Rng :=
  match seed with
  | none => ⟨mathRandom, 0⟩
  | some s => ⟨mulberry32 s, 0⟩

/-- Embedding of `randomInRange`: `lo + rng() * (hi - lo)`. -/
def randomInRange (r : Rng) (lo hi : ℚ) : ℚ × Rng :=
  let (u, r') := rngNext r
  (lo + u * (hi - lo), r')

/-- Corner displacement options (`corners` in the configuration). -/
structure CornerOptions where
  x : ℚ
  y : ℚ
  independent : Bool
deriving DecidableEq

/-- Edge-point options (`edges` in the configuration).  `points` is declared
by the library interface as a non-negative integer. -/
structure EdgeOptions where
  points : Nat
  deviation : ℚ
  distribution : String
deriving DecidableEq

/-- The (merged) configuration consumed by `generatePolygon`. -/
structure Options where
  corners : CornerOptions
  edges : EdgeOptions
  cutCorners : Int
  cornerInset : ℚ
  seed : Option Int
deriving DecidableEq

/-- Model of `Array.prototype.map` with the element index (pure callback). -/
def mapIdxAux (f : Nat → α → β) : Nat → List α → List β
  | _, [] => []
  | k, a :: l => f k a :: mapIdxAux f (k + 1) l

/-- Model of `Array.prototype.filter` with the element index. -/
def filterIdxAux (p : Nat → Bool) : Nat → List α → List α
  | _, [] => []
  | k, a :: l => if p k then a :: filterIdxAux p (k + 1) l else filterIdxAux p (k + 1) l

/-- Model of `Array.prototype.map` with an RNG-drawing callback (the JavaScript
callback closes over the mutable generator; here the state is threaded left
to right, in iteration order). -/
def mapRng (g : α → Rng → β × Rng) : List α → Rng → List β × Rng
  | [], r => ([], r)
  | a :: l, r =>
    let (b, r') := g a r
    let (bs, r'') := mapRng g l r'
    (b :: bs, r'')

/-- Variant of `mapRng` with the element index as well. -/
def mapIdxRng (g : Nat → α → Rng → β × Rng) : Nat → List α → Rng → List β × Rng
  | _, [], r => ([], r)
  | k, a :: l, r =>
    let (b, r') := g k a r
    let (bs, r'') := mapIdxRng g (k + 1) l r'
    (b :: bs, r'')

/-- The list of `n` consecutive raw RNG outputs, in call order. -/
def drawList : Nat → Rng → List ℚ × Rng
  | 0, r => ([], r)
  | n + 1, r =>
    let (u, r') := rngNext r
    let (us, r'') := drawList n r'
    (u :: us, r'')

/-- Embedding of `clampCornerX` (`src/core/corners.js`): left corners (indices 0, 3) are
clamped to `[0, 2*maxOffset]`, right corners (1, 2) to
`[width - 2*maxOffset, width]`. -/
def clampCornerX (x : JsNum) (cornerIndex : Nat) (width maxOffset : ℚ) : JsNum :=
  if cornerIndex = 0 ∨ cornerIndex = 3 then
    jmax (some 0) (jmin x (some (maxOffset * 2)))
  else
    jmax (some (width - maxOffset * 2)) (jmin x (some width))

/-- Embedding of `clampCornerY` (`src/core/corners.js`): top corners (indices 0, 1) are
clamped to `[0, 2*maxOffset]`, bottom corners (2, 3) to
`[height - 2*maxOffset, height]`. -/
def clampCornerY (y : JsNum) (cornerIndex : Nat) (height maxOffset : ℚ) : JsNum :=
  if cornerIndex = 0 ∨ cornerIndex = 1 then
    jmax (some 0) (jmin y (some (maxOffset * 2)))
  else
    jmax (some (height - maxOffset * 2)) (jmin y (some height))

/-- The base rectangle corners `[TL, TR, BR, BL]`. -/
def baseCorners (width height : ℚ) : List Point :=
  [⟨some 0, some 0⟩, ⟨some width, some 0⟩, ⟨some width, some height⟩, ⟨some 0, some height⟩]

/-- Embedding of `generateCorners` (`src/core/corners.js`): base corners; short-circuit if
both offsets are zero; otherwise one `(dx, dy)` draw pair per corner when
`independent`, a single shared pair otherwise, each displaced coordinate
clamped to its corner's band. -/
def generateCorners (width height : ℚ) (co : CornerOptions) (r : Rng) : List Point × Rng :=
  if co.x = 0 ∧ co.y = 0 then (baseCorners width height, r)
  else if co.independent then
    mapIdxRng (fun index corner r0 =>
      let (dx, r1) := randomInRange r0 (-co.x) co.x
      let (dy, r2) := randomInRange r1 (-co.y) co.y
      (⟨clampCornerX (jadd corner.x (some dx)) index width co.x,
        clampCornerY (jadd corner.y (some dy)) index height co.y⟩, r2))
      0 (baseCorners width height) r
  else
    let (dx, r1) := randomInRange r (-co.x) co.x
    let (dy, r2) := randomInRange r1 (-co.y) co.y
    (mapIdxAux (fun index corner =>
      ⟨clampCornerX (jadd corner.x (some dx)) index width co.x,
       clampCornerY (jadd corner.y (some dy)) index height co.y⟩)
      0 (baseCorners width height), r2)

/-- Embedding of `getPositions` (`src/core/edges.js`): along-edge positions in `(0, 1)`.
`"even"` is deterministic; `"weighted-center"` and the default (`"random"`)
draw `count` values, transform them, and sort ascending.  The JavaScript
numeric sort produces the unique ascending reordering, here
`List.insertionSort`. -/
def getPositions (count : Nat) (distribution : String) (r : Rng) : List ℚ × Rng :=
  match distribution with
  | "even" =>
    ((List.range count).map fun (i : Nat) => ((i : ℚ) + 1) / ((count : ℚ) + 1), r)
  | "weighted-center" =>
    let (us, r') := drawList count r
    (List.insertionSort (· ≤ ·)
      (us.map fun u =>
        let centered := 1/2 + (u - 1/2) * (6/10)
        let lo := if (9/10 : ℚ) ≤ centered then (9/10 : ℚ) else centered
        if (1/10 : ℚ) ≤ lo then lo else 1/10), r')
  | _ =>
    let (us, r') := drawList count r
    (List.insertionSort (· ≤ ·) (us.map fun u => 1/10 + u * (8/10)), r')

/-- Embedding of `generateEdgePoints` (`src/core/edges.js`): short-circuit to no points
when `points <= 0` (a `Nat`, hence `= 0`) or `deviation === 0`; otherwise
interpolate each position along the edge and displace it along the unit
perpendicular by a fresh `randomInRange rng (-deviation) deviation` draw. -/
def generateEdgePoints (sqrtFn : ℚ → ℚ) (ps pe : Point) (eo : EdgeOptions) (r : Rng) :
    List Point × Rng :=
  if eo.points = 0 ∨ eo.deviation = 0 then ([], r)
  else
    let (positions, r1) := getPositions eo.points eo.distribution r
    let evx := jsub pe.x ps.x
    let evy := jsub pe.y ps.y
    let edgeLength := jsqrt sqrtFn (jadd (jmul evx evx) (jmul evy evy))
    let perpX := jdiv (jneg evy) edgeLength
    let perpY := jdiv evx edgeLength
    mapRng (fun t r0 =>
      let lineX := jadd ps.x (jmul (some t) evx)
      let lineY := jadd ps.y (jmul (some t) evy)
      let (offset, r0') := randomInRange r0 (-eo.deviation) eo.deviation
      (⟨jadd lineX (jmul (some offset) perpX), jadd lineY (jmul (some offset) perpY)⟩, r0'))
      positions r1

/-- The loop of `insertEdgePoints`: walk the corners in order, appending each
corner and then the generated points of the edge from it to the next corner
(wrapping around to `first` after the last corner). -/
def edgeWalk (sqrtFn : ℚ → ℚ) (eo : EdgeOptions) (first : Point) :
    List Point → Rng → List Point × Rng
  | [], r => ([], r)
  | [last], r =>
    let (eps, r') := generateEdgePoints sqrtFn last first eo r
    (last :: eps, r')
  | a :: b :: l, r =>
    let (eps, r') := generateEdgePoints sqrtFn a b eo r
    let (rest, r'') := edgeWalk sqrtFn eo first (b :: l) r'
    (a :: (eps ++ rest), r'')

/-- Embedding of `insertEdgePoints` (`src/core/edges.js`): return the corners unchanged
when `points <= 0`, else interleave the corners with the per-edge points. -/
def insertEdgePoints (sqrtFn : ℚ → ℚ) (corners : List Point) (eo : EdgeOptions) (r : Rng) :
    List Point × Rng :=
  if eo.points = 0 then (corners, r)
  else
    match corners with
    | [] => ([], r)
    | c :: _ => edgeWalk sqrtFn eo c corners r

/-- Model of JavaScript `Set.prototype.add` on a list kept in insertion order. -/
def jsSetAdd (l : List Nat) (a : Nat) : List Nat :=
  if a ∈ l then l else l ++ [a]

/-- The draw-and-remove loop of `selectCornersToCut`: `randomIndex =
Math.floor(rng() * available.length)`, add `available[randomIndex]` to the
selection, splice it out of `available`.  Both generators produce values in
`[0, 1)`, so the index is always in range. -/
def pickLoop : Nat → List Nat → List Nat → Rng → List Nat × Rng
  | 0, _, sel, r => (sel, r)
  | n + 1, avail, sel, r =>
    let (u, r') := rngNext r
    let ri := (⌊u * (avail.length : ℚ)⌋).toNat
    pickLoop n (avail.eraseIdx ri) (jsSetAdd sel (avail.getD ri 0)) r'

/-- Embedding of `selectCornersToCut` (`src/core/polygon.js`): no corners for
`count <= 0`, all four for `count >= 4`, otherwise `count` draws without
replacement from `{0, 1, 2, 3}`. -/
def selectCornersToCut (count : Int) (r : Rng) : List Nat × Rng :=
  if count ≤ 0 then ([], r)
  else if 4 ≤ count then ([0, 1, 2, 3], r)
  else pickLoop count.toNat [0, 1, 2, 3] [] r

/-- The partial-inset pass of `generatePolygon`: every selected corner point
moves toward the midpoint of its (pre-pass) neighbours by the fraction
`inset`.  `polygon.map` reads neighbours from the original array. -/
def insetPass (cornersToCut : List Nat) (stride : Nat) (inset : ℚ) (polygon : List Point) :
    List Point :=
  mapIdxAux (fun index point =>
    if index % stride == 0 && cornersToCut.contains (index / stride) then
      let prevPoint := polygon.getD ((index + polygon.length - 1) % polygon.length) dfltPt
      let nextPoint := polygon.getD ((index + 1) % polygon.length) dfltPt
      let midX := jdiv (jadd prevPoint.x nextPoint.x) (some 2)
      let midY := jdiv (jadd prevPoint.y nextPoint.y) (some 2)
      ⟨jadd point.x (jmul (jsub midX point.x) (some inset)),
       jadd point.y (jmul (jsub midY point.y) (some inset))⟩
    else point)
    0 polygon

/-- Embedding of `generatePolygon` (`src/core/polygon.js`): displaced corners, then edge
points, then the optional corner cut — a full removal of the selected corner
slots when `inset >= 1`, the midpoint inset when `0 < inset < 1`, a no-op
otherwise.  `stride = points + 1` uses the configured `edges.points`
(`pointsPerEdge || 0` is the identity on a `Nat`), and
`Math.floor(index / stride)` is `Nat` division.  `mathRandom` is the
`Math.random` oracle, used only when `seed` is `null`. -/
def generatePolygon (sqrtFn : ℚ → ℚ) (width height : ℚ) (options : Options)
    (mathRandom : Nat → ℚ) : List Point :=
  let rng := getRNG options.seed mathRandom
  let (corners, r1) := generateCorners width height options.corners rng
  let (polygon, r2) := insertEdgePoints sqrtFn corners options.edges r1
  if 0 < options.cutCorners then
    let (cornersToCut, _) := selectCornersToCut options.cutCorners r2
    let stride := options.edges.points + 1
    let inset := options.cornerInset
    if 1 ≤ inset then
      filterIdxAux (fun index =>
        !(index % stride == 0 && cornersToCut.contains (index / stride))) 0 polygon
    else if 0 < inset then
      insetPass cornersToCut stride inset polygon
    else polygon
  else polygon

/-! ## Specification-side definitions

These definitions follow the wording of the specification (not the source);
the refinement theorems below compare them with the source embedding. -/

/-- The specification's `randomInRange` applied to a given draw `u`:
`lo + u * (hi - lo)`. -/
def rirSpec (u lo hi : ℚ) : ℚ := lo + u * (hi - lo)

/-- A displaced, clamped corner as the specification describes it:
`corner.x += dx`, `corner.y += dy`, then clamp to the corner's band. -/
def dispCornerSpec (w h : ℚ) (co : CornerOptions) (base : Point) (j : Nat) (dx dy : ℚ) :
    Point :=
  ⟨clampCornerX (jadd base.x (some dx)) j w co.x,
   clampCornerY (jadd base.y (some dy)) j h co.y⟩

/-- Specification-side definition: `generateCorners` as the specification states it: base corners unchanged
with no RNG consumption when both offsets are zero; one `(dx, dy)` pair per
corner (8 draws, order TL, TR, BR, BL) when `independent`; a single shared
`(dx, dy)` pair (2 draws) otherwise. -/
def generateCornersSpec (w h : ℚ) (co : CornerOptions) (r : Rng) : List Point × Rng :=
  if co.x = 0 ∧ co.y = 0 then (baseCorners w h, r)
  else if co.independent then
    ([dispCornerSpec w h co ⟨some 0, some 0⟩ 0
        (rirSpec (r.stream r.idx) (-co.x) co.x) (rirSpec (r.stream (r.idx + 1)) (-co.y) co.y),
      dispCornerSpec w h co ⟨some w, some 0⟩ 1
        (rirSpec (r.stream (r.idx + 2)) (-co.x) co.x)
        (rirSpec (r.stream (r.idx + 3)) (-co.y) co.y),
      dispCornerSpec w h co ⟨some w, some h⟩ 2
        (rirSpec (r.stream (r.idx + 4)) (-co.x) co.x)
        (rirSpec (r.stream (r.idx + 5)) (-co.y) co.y),
      dispCornerSpec w h co ⟨some 0, some h⟩ 3
        (rirSpec (r.stream (r.idx + 6)) (-co.x) co.x)
        (rirSpec (r.stream (r.idx + 7)) (-co.y) co.y)], rngAdvance r 8)
  else
    ([dispCornerSpec w h co ⟨some 0, some 0⟩ 0
        (rirSpec (r.stream r.idx) (-co.x) co.x) (rirSpec (r.stream (r.idx + 1)) (-co.y) co.y),
      dispCornerSpec w h co ⟨some w, some 0⟩ 1
        (rirSpec (r.stream r.idx) (-co.x) co.x) (rirSpec (r.stream (r.idx + 1)) (-co.y) co.y),
      dispCornerSpec w h co ⟨some w, some h⟩ 2
        (rirSpec (r.stream r.idx) (-co.x) co.x) (rirSpec (r.stream (r.idx + 1)) (-co.y) co.y),
      dispCornerSpec w h co ⟨some 0, some h⟩ 3
        (rirSpec (r.stream r.idx) (-co.x) co.x) (rirSpec (r.stream (r.idx + 1)) (-co.y) co.y)],
     rngAdvance r 2)

/-- The specification's `even` distribution: `t_i = i/(N+1)` for `i = 1..N`,
no RNG draw. -/
def positionsEvenSpec (n : Nat) : List ℚ :=
  (List.range n).map fun (i : Nat) => ((i : ℚ) + 1) / ((n : ℚ) + 1)

/-- The specification's `random` distribution: `N` values `0.1 + rng()*0.8`,
sorted ascending. -/
def positionsRandomSpec (n : Nat) (r : Rng) : List ℚ :=
  List.insertionSort (· ≤ ·)
    ((List.range n).map fun k => 1/10 + r.stream (r.idx + k) * (8/10))

/-- The specification's `weighted-center` distribution: `N` values
`clamp(0.5 + (rng() - 0.5)*0.6, 0.1, 0.9)`, sorted ascending. -/
def positionsWeightedSpec (n : Nat) (r : Rng) : List ℚ :=
  List.insertionSort (· ≤ ·)
    ((List.range n).map fun k =>
      max (1/10) (min (9/10) (1/2 + (r.stream (r.idx + k) - 1/2) * (6/10))))

/-- The predicate `lo ≤ v ≤ hi` for a JavaScript number: false for `NaN`. -/
def jsNumBetween (lo : ℚ) (v : JsNum) (hi : ℚ) : Prop :=
  match v with
  | some a => lo ≤ a ∧ a ≤ hi
  | none => False

instance (lo hi : ℚ) : (v : JsNum) → Decidable (jsNumBetween lo v hi)
  | some a => inferInstanceAs (Decidable (lo ≤ a ∧ a ≤ hi))
  | none => inferInstanceAs (Decidable False)

/-- The clamp-band invariant of the specification for the four corners
`[TL, TR, BR, BL]`: left corners have `x ∈ [0, 2*offsetX]`, right corners
`x ∈ [W - 2*offsetX, W]`, top corners `y ∈ [0, 2*offsetY]`, bottom corners
`y ∈ [H - 2*offsetY, H]`. -/
def cornerBands (w h : ℚ) (co : CornerOptions) (cs : List Point) : Prop :=
  cs.length = 4 ∧
  jsNumBetween 0 (cs.getD 0 dfltPt).x (2 * co.x) ∧
  jsNumBetween 0 (cs.getD 0 dfltPt).y (2 * co.y) ∧
  jsNumBetween (w - 2 * co.x) (cs.getD 1 dfltPt).x w ∧
  jsNumBetween 0 (cs.getD 1 dfltPt).y (2 * co.y) ∧
  jsNumBetween (w - 2 * co.x) (cs.getD 2 dfltPt).x w ∧
  jsNumBetween (h - 2 * co.y) (cs.getD 2 dfltPt).y h ∧
  jsNumBetween 0 (cs.getD 3 dfltPt).x (2 * co.x) ∧
  jsNumBetween (h - 2 * co.y) (cs.getD 3 dfltPt).y h

/-- A stream whose outputs all lie in `[0, 1)`, as both `Math.random` and the
seeded mulberry32 generator guarantee. -/
def streamIn01 (f : Nat → ℚ) : Prop := ∀ n, 0 ≤ f n ∧ f n < 1

/-! ## Concrete configurations used by counterexamples and witnesses -/

/-- The zero oracle, standing in for `Math.random` where its values are
irrelevant. -/
def oracle0 : Nat → ℚ := fun _ => 0

/-- A concrete RNG state for witnesses. -/
def rng0 : Rng := ⟨oracle0, 0⟩

/-- Example 1 of the specification: no displacement, no edge points, no cut,
seed 1. -/
def cfgEx8 : Options := ⟨⟨0, 0, true⟩, ⟨0, 0, "random"⟩, 0, 1, some 1⟩

/-- Counterexample configuration for C1: one edge point per edge requested
but `deviation = 0`, no corner cut. -/
def cfgC1x : Options := ⟨⟨0, 0, true⟩, ⟨1, 0, "even"⟩, 0, 1, some 1⟩

/-- Failing input for C2: `width = 0` with one (deviating) edge point per
edge makes the top and bottom edges zero-length (`seed = null` with the
`Math.random` stand-in `oracle0`). -/
def cfgC2x : Options := ⟨⟨0, 0, true⟩, ⟨1, 3, "even"⟩, 0, 1, none⟩

/-- Counterexample configuration for C4: corner offset `x = -5`, which the
claim says must behave like the clamped value `0`. -/
def cfgC4neg : Options := ⟨⟨-5, 0, true⟩, ⟨0, 0, "random"⟩, 0, 1, none⟩

/-- Configuration `cfgC4neg` with `corners.x` clamped to its nearest valid bound `0`. -/
def cfgC4zero : Options := ⟨⟨0, 0, true⟩, ⟨0, 0, "random"⟩, 0, 1, none⟩

/-- Counterexample configuration for C9: `cutCorners = 4`, full cut,
`edges.points = 2` but `edges.deviation = 0`. -/
def cfgC9x : Options := ⟨⟨0, 0, true⟩, ⟨2, 0, "even"⟩, 4, 1, some 1⟩

/-- Witness configuration for the point-count claim: two edge points per
edge, deviation 3, two corners cut with a full inset. -/
def cfgW1 : Options := ⟨⟨0, 0, true⟩, ⟨2, 3, "even"⟩, 2, 1, some 7⟩

/-- Witness configuration for the determinism claim. -/
def cfgW3 : Options := ⟨⟨5, 4, true⟩, ⟨2, 3, "random"⟩, 1, 1, some 5⟩

/-- A second oracle, distinct from `oracle0`, for the determinism witness. -/
def oracleHalf : Nat → ℚ := fun _ => 1/2

/-- Witness configuration for the clamping claim: `cutCorners = 7` (out of
range above). -/
def cfgW4 : Options := ⟨⟨5, 4, true⟩, ⟨1, 3, "random"⟩, 7, 1, some 3⟩

/-- Witness configuration for the empty-polygon claim: no edge points,
all four corners cut fully. -/
def cfgW9 : Options := ⟨⟨3, 2, true⟩, ⟨0, 5, "random"⟩, 4, 1, some 9⟩

/-- Witness configuration for the deviation-zero claim: three edge points
requested but deviation 0. -/
def cfgW10 : Options := ⟨⟨1, 2, true⟩, ⟨3, 0, "random"⟩, 0, 1, some 11⟩

/-! ## Basic lemmas about the embedding -/

@[simp] lemma jadd_some (a b : ℚ) : jadd (some a) (some b) = some (a + b) := rfl

@[simp] lemma jsub_some (a b : ℚ) : jsub (some a) (some b) = some (a - b) := rfl

@[simp] lemma jmul_some (a b : ℚ) : jmul (some a) (some b) = some (a * b) := rfl

@[simp] lemma jmax_some (a b : ℚ) : jmax (some a) (some b) = some (max a b) := by
  simp [jmax, max_def]

@[simp] lemma jmin_some (a b : ℚ) : jmin (some a) (some b) = some (min a b) := by
  simp [jmin, min_def]

@[simp] lemma jmul_none (a : JsNum) : jmul a none = none := by cases a <;> rfl

@[simp] lemma jadd_none (a : JsNum) : jadd a none = none := by cases a <;> rfl

lemma rngNext_stream (r : Rng) : (rngNext r).2.stream = r.stream := rfl

lemma rngAdvance_zero (r : Rng) : rngAdvance r 0 = r := rfl

/-- The mixed output word is always a 32-bit value. -/
lemma mulberry32Mix_lt (t0 : Nat) : mulberry32Mix t0 < 4294967296 :=
  Nat.mod_lt _ (by norm_num)

/-- The seeded generator only produces values in `[0, 1)`. -/
lemma mulberry32_in01 (s : Int) : streamIn01 (mulberry32 s) := by
  intro n
  unfold mulberry32
  constructor
  · positivity
  · rw [div_lt_one (by norm_num)]
    exact_mod_cast mulberry32Mix_lt _

/-- If the `Math.random` oracle produces values in `[0, 1)` then so does the
stream selected by `getRNG`, whatever the seed. -/
lemma getRNG_in01 (seed : Option Int) (oracle : Nat → ℚ) (h : streamIn01 oracle) :
    streamIn01 (getRNG seed oracle).stream := by
  cases seed with
  | none => exact h
  | some s => exact mulberry32_in01 s

/-- Lemma: `drawList` returns the next `n` stream values in call order and advances
the state by `n`. -/
lemma drawList_eq (n : Nat) (r : Rng) :
    drawList n r = ((List.range n).map fun k => r.stream (r.idx + k), rngAdvance r n) := by
  induction n generalizing r with
  | zero => rfl
  | succ m ih =>
    simp only [drawList, rngNext, ih, List.range_succ_eq_map, List.map_cons, List.map_map,
      rngAdvance, Prod.mk.injEq, Rng.mk.injEq, List.cons.injEq]
    refine ⟨⟨by norm_num, ?_⟩, trivial, by omega⟩
    apply List.map_congr_left
    intro k _
    simp only [Function.comp_def]
    congr 1
    omega

lemma mapRng_length (g : α → Rng → β × Rng) (l : List α) (r : Rng) :
    ((mapRng g l r).1).length = l.length := by
  induction l generalizing r with
  | nil => rfl
  | cons a t ih => simp [mapRng, ih]

lemma mapRng_stream (g : α → Rng → β × Rng)
    (hg : ∀ a r0, ((g a r0).2).stream = r0.stream) (l : List α) (r : Rng) :
    ((mapRng g l r).2).stream = r.stream := by
  induction l generalizing r with
  | nil => rfl
  | cons a t ih => simp [mapRng, ih, hg]

lemma mapIdxAux_length (f : Nat → α → β) (k : Nat) (l : List α) :
    (mapIdxAux f k l).length = l.length := by
  induction l generalizing k with
  | nil => rfl
  | cons a t ih => simp [mapIdxAux, ih]

/-! ## `getPositions` lemmas -/

lemma getPositions_even (n : Nat) (r : Rng) :
    getPositions n "even" r = (positionsEvenSpec n, r) := rfl

lemma getPositions_random (n : Nat) (r : Rng) :
    getPositions n "random" r = (positionsRandomSpec n r, rngAdvance r n) := by
  simp [getPositions, positionsRandomSpec, drawList_eq, List.map_map, Function.comp_def]

lemma getPositions_weighted (n : Nat) (r : Rng) :
    getPositions n "weighted-center" r = (positionsWeightedSpec n r, rngAdvance r n) := by
  simp [getPositions, positionsWeightedSpec, drawList_eq, List.map_map, Function.comp_def,
    max_def, min_def]

lemma getPositions_length (n : Nat) (d : String) (r : Rng) :
    ((getPositions n d r).1).length = n := by
  unfold getPositions
  split
  · simp
  · simp [drawList_eq, List.length_insertionSort]
  · simp [drawList_eq, List.length_insertionSort]

lemma getPositions_stream (n : Nat) (d : String) (r : Rng) :
    ((getPositions n d r).2).stream = r.stream := by
  unfold getPositions
  split
  · rfl
  · simp [drawList_eq, rngAdvance]
  · simp [drawList_eq, rngAdvance]

/-- The `even` positions are sorted ascending. -/
lemma positionsEvenSpec_sorted (n : Nat) : List.Sorted (· ≤ ·) (positionsEvenSpec n) := by
  unfold positionsEvenSpec
  refine (List.sorted_lt_range n).map _ ?_
  intro a b hab
  have hn : (0 : ℚ) < (n : ℚ) + 1 := by positivity
  rw [div_le_div_iff_of_pos_right hn]
  have : (a : ℚ) ≤ (b : ℚ) := by exact_mod_cast hab.le
  linarith

lemma positionsRandomSpec_sorted (n : Nat) (r : Rng) :
    List.Sorted (· ≤ ·) (positionsRandomSpec n r) :=
  List.sorted_insertionSort _ _

lemma positionsWeightedSpec_sorted (n : Nat) (r : Rng) :
    List.Sorted (· ≤ ·) (positionsWeightedSpec n r) :=
  List.sorted_insertionSort _ _


/-! ## `generateEdgePoints`, `edgeWalk`, `insertEdgePoints` lemmas -/

lemma randomInRange_stream (r : Rng) (lo hi : ℚ) :
    ((randomInRange r lo hi).2).stream = r.stream := rfl

/-- The short-circuit of `generateEdgePoints`: no points requested or zero
deviation produces no points and consumes no RNG draws. -/
lemma generateEdgePoints_nil (sqrtFn : ℚ → ℚ) (a b : Point) (eo : EdgeOptions) (r : Rng)
    (h : eo.points = 0 ∨ eo.deviation = 0) :
    generateEdgePoints sqrtFn a b eo r = ([], r) := by
  unfold generateEdgePoints
  rw [if_pos h]

lemma generateEdgePoints_length (sqrtFn : ℚ → ℚ) (a b : Point) (eo : EdgeOptions) (r : Rng)
    (h : eo.deviation ≠ 0) :
    ((generateEdgePoints sqrtFn a b eo r).1).length = eo.points := by
  unfold generateEdgePoints
  by_cases hp : eo.points = 0
  · rw [if_pos (Or.inl hp), hp]
    rfl
  · rw [if_neg (by push_neg; exact ⟨hp, h⟩)]
    have hlen := getPositions_length eo.points eo.distribution r
    rcases hgp : getPositions eo.points eo.distribution r with ⟨ps, r1⟩
    rw [hgp] at hlen
    simp only [mapRng_length]
    exact hlen

lemma generateEdgePoints_stream (sqrtFn : ℚ → ℚ) (a b : Point) (eo : EdgeOptions) (r : Rng) :
    ((generateEdgePoints sqrtFn a b eo r).2).stream = r.stream := by
  unfold generateEdgePoints
  split
  · rfl
  · have hstr := getPositions_stream eo.points eo.distribution r
    rcases hgp : getPositions eo.points eo.distribution r with ⟨ps, r1⟩
    rw [hgp] at hstr
    simp only
    rw [mapRng_stream]
    · exact hstr
    · intro t r0
      rfl

/-- With zero deviation the walk reproduces the corner list and consumes no
RNG draws. -/
lemma edgeWalk_dev0 (sqrtFn : ℚ → ℚ) (eo : EdgeOptions) (first : Point)
    (h : eo.deviation = 0) (l : List Point) (r : Rng) :
    edgeWalk sqrtFn eo first l r = (l, r) := by
  induction l generalizing r with
  | nil => rfl
  | cons a t ih =>
    cases t with
    | nil =>
      unfold edgeWalk
      rw [generateEdgePoints_nil _ _ _ _ _ (Or.inr h)]
    | cons b t' =>
      unfold edgeWalk
      rw [generateEdgePoints_nil _ _ _ _ _ (Or.inr h)]
      dsimp only
      rw [ih]
      simp

/-- With zero deviation, edge insertion is the identity on the polygon and on
the RNG state. -/
lemma insertEdgePoints_dev0 (sqrtFn : ℚ → ℚ) (corners : List Point) (eo : EdgeOptions)
    (r : Rng) (h : eo.deviation = 0) :
    insertEdgePoints sqrtFn corners eo r = (corners, r) := by
  unfold insertEdgePoints
  split
  · rfl
  · cases corners with
    | nil => rfl
    | cons c t => exact edgeWalk_dev0 sqrtFn eo c h (c :: t) r

/-- With zero points requested, edge insertion is the identity. -/
lemma insertEdgePoints_p0 (sqrtFn : ℚ → ℚ) (corners : List Point) (eo : EdgeOptions)
    (r : Rng) (h : eo.points = 0) :
    insertEdgePoints sqrtFn corners eo r = (corners, r) := by
  unfold insertEdgePoints
  rw [if_pos h]

lemma insertEdgePoints_shape (sqrtFn : ℚ → ℚ) (c0 c1 c2 c3 : Point) (eo : EdgeOptions)
    (r : Rng) (h : eo.deviation ≠ 0) :
    ∃ e0 e1 e2 e3 r',
      insertEdgePoints sqrtFn [c0, c1, c2, c3] eo r
        = ((c0 :: e0) ++ ((c1 :: e1) ++ ((c2 :: e2) ++ (c3 :: e3))), r')
      ∧ e0.length = eo.points ∧ e1.length = eo.points
      ∧ e2.length = eo.points ∧ e3.length = eo.points ∧ r'.stream = r.stream := by
  by_cases hp : eo.points = 0
  · refine ⟨[], [], [], [], r, ?_, by simp [hp], by simp [hp], by simp [hp], by simp [hp], rfl⟩
    rw [insertEdgePoints_p0 _ _ _ _ hp]
    simp
  · have hl0 := generateEdgePoints_length sqrtFn c0 c1 eo r h
    have hs0 := generateEdgePoints_stream sqrtFn c0 c1 eo r
    rcases h0 : generateEdgePoints sqrtFn c0 c1 eo r with ⟨e0, r1⟩
    rw [h0] at hl0 hs0
    have hl1 := generateEdgePoints_length sqrtFn c1 c2 eo r1 h
    have hs1 := generateEdgePoints_stream sqrtFn c1 c2 eo r1
    rcases h1 : generateEdgePoints sqrtFn c1 c2 eo r1 with ⟨e1, r2⟩
    rw [h1] at hl1 hs1
    have hl2 := generateEdgePoints_length sqrtFn c2 c3 eo r2 h
    have hs2 := generateEdgePoints_stream sqrtFn c2 c3 eo r2
    rcases h2 : generateEdgePoints sqrtFn c2 c3 eo r2 with ⟨e2, r3⟩
    rw [h2] at hl2 hs2
    have hl3 := generateEdgePoints_length sqrtFn c3 c0 eo r3 h
    have hs3 := generateEdgePoints_stream sqrtFn c3 c0 eo r3
    rcases h3 : generateEdgePoints sqrtFn c3 c0 eo r3 with ⟨e3, r4⟩
    rw [h3] at hl3 hs3
    refine ⟨e0, e1, e2, e3, r4, ?_, hl0, hl1, hl2, hl3, by rw [hs3, hs2, hs1, hs0]⟩
    unfold insertEdgePoints
    rw [if_neg hp]
    show edgeWalk sqrtFn eo c0 [c0, c1, c2, c3] r = _
    unfold edgeWalk
    rw [h0]
    dsimp only
    unfold edgeWalk
    rw [h1]
    dsimp only
    unfold edgeWalk
    rw [h2]
    dsimp only
    unfold edgeWalk
    rw [h3]
    dsimp only
    simp

/-! ## `generateCorners` lemmas -/

lemma generateCorners_shape (w h : ℚ) (co : CornerOptions) (r : Rng) :
    ∃ p0 p1 p2 p3 r', generateCorners w h co r = ([p0, p1, p2, p3], r')
      ∧ r'.stream = r.stream := by
  unfold generateCorners
  split
  · exact ⟨_, _, _, _, r, rfl, rfl⟩
  · split
    · simp only [baseCorners, mapIdxRng, randomInRange, rngNext]
      exact ⟨_, _, _, _, _, rfl, rfl⟩
    · simp only [baseCorners, mapIdxAux, randomInRange, rngNext]
      exact ⟨_, _, _, _, _, rfl, rfl⟩

/-! ## Corner-cut selection lemmas -/

lemma floor_mul_bounds (u : ℚ) (len : Nat) (h0 : 0 ≤ u) (h1 : u < 1) (hlen : 0 < len) :
    0 ≤ ⌊u * (len : ℚ)⌋ ∧ ⌊u * (len : ℚ)⌋ < (len : Int) := by
  constructor
  · exact Int.floor_nonneg.mpr (by positivity)
  · rw [Int.floor_lt]
    push_cast
    have hlq : (0 : ℚ) < (len : ℚ) := by exact_mod_cast hlen
    nlinarith

lemma getElem_not_mem_eraseIdx (l : List Nat) (i : Nat) (hi : i < l.length)
    (hnd : l.Nodup) : l.get ⟨i, hi⟩ ∉ l.eraseIdx i := by
  have hsplit : l.take i ++ l.get ⟨i, hi⟩ :: l.drop (i + 1) = l := by
    rw [List.get_eq_getElem, ← List.drop_eq_getElem_cons hi, List.take_append_drop]
  rw [List.eraseIdx_eq_take_drop_succ]
  intro hmem
  rw [← hsplit] at hnd
  rcases List.mem_append.mp hmem with hmem | hmem
  · have hdisj := (List.nodup_append.mp hnd).2.2
    exact hdisj hmem (List.mem_cons_self _ _)
  · have hcons := (List.nodup_append.mp hnd).2.1
    exact (List.nodup_cons.mp hcons).1 hmem

lemma pickLoop_props : ∀ (n : Nat) (avail sel : List Nat) (r : Rng),
    streamIn01 r.stream → n ≤ avail.length → avail.Nodup → sel.Nodup →
    (∀ x ∈ avail, x ∉ sel) → (∀ x ∈ avail, x < 4) → (∀ x ∈ sel, x < 4) →
    ((pickLoop n avail sel r).1).Nodup
    ∧ ((pickLoop n avail sel r).1).length = sel.length + n
    ∧ (∀ x ∈ (pickLoop n avail sel r).1, x < 4) := by
  intro n
  induction n with
  | zero =>
    intro avail sel r _ _ _ hselnd _ _ hsel4
    exact ⟨hselnd, by simp [pickLoop], hsel4⟩
  | succ m ih =>
    intro avail sel r h01 hlen hnd hselnd hdisj havail4 hsel4
    have hpos : 0 < avail.length := by omega
    obtain ⟨hf0, hflt⟩ :=
      floor_mul_bounds (r.stream r.idx) avail.length (h01 r.idx).1 (h01 r.idx).2 hpos
    have hrilt : (⌊(r.stream r.idx) * (avail.length : ℚ)⌋).toNat < avail.length := by omega
    have hget : avail.getD (⌊(r.stream r.idx) * (avail.length : ℚ)⌋).toNat 0
        = avail.get ⟨_, hrilt⟩ := by
      simp [List.getD_eq_getElem?_getD, List.getElem?_eq_getElem hrilt]
    have hmem : avail.get ⟨_, hrilt⟩ ∈ avail := List.get_mem _ _ _
    have hnotsel : avail.get ⟨_, hrilt⟩ ∉ sel := hdisj _ hmem
    have hadd : jsSetAdd sel (avail.getD (⌊(r.stream r.idx) * (avail.length : ℚ)⌋).toNat 0)
        = sel ++ [avail.get ⟨_, hrilt⟩] := by
      rw [hget]
      unfold jsSetAdd
      rw [if_neg hnotsel]
    have hnotmem' := getElem_not_mem_eraseIdx avail _ hrilt hnd
    have herlen : (avail.eraseIdx (⌊(r.stream r.idx) * (avail.length : ℚ)⌋).toNat).length
        = avail.length - 1 := by
      rw [List.length_eraseIdx]
      simp [hrilt]
    have hrec := ih (avail.eraseIdx (⌊(r.stream r.idx) * (avail.length : ℚ)⌋).toNat)
      (sel ++ [avail.get ⟨_, hrilt⟩]) ⟨r.stream, r.idx + 1⟩ h01
      (by omega)
      ((List.eraseIdx_sublist avail _).nodup hnd)
      (by
        rw [List.nodup_append]
        exact ⟨hselnd, List.nodup_singleton _, by
          intro a ha hb
          rw [List.mem_singleton] at hb
          subst hb
          exact hnotsel ha⟩)
      (by
        intro x hx
        have hxavail : x ∈ avail := (List.eraseIdx_sublist avail _).subset hx
        rw [List.mem_append, List.mem_singleton]
        rintro (hxs | hxe)
        · exact hdisj x hxavail hxs
        · subst hxe
          exact hnotmem' hx)
      (fun x hx => havail4 x ((List.eraseIdx_sublist avail _).subset hx))
      (by
        intro x hx
        rw [List.mem_append, List.mem_singleton] at hx
        rcases hx with hx | hx
        · exact hsel4 x hx
        · subst hx
          exact havail4 _ hmem)
    show ((pickLoop (m + 1) avail sel r).1).Nodup ∧ _ ∧ _
    unfold pickLoop
    dsimp only [rngNext]
    rw [hadd]
    refine ⟨hrec.1, ?_, hrec.2.2⟩
    rw [hrec.2.1]
    simp
    omega

lemma selectCornersToCut_spec (count : Int) (r : Rng) (h01 : streamIn01 r.stream) :
    ((selectCornersToCut count r).1).Nodup
    ∧ ((selectCornersToCut count r).1).length = min count.toNat 4
    ∧ (∀ x ∈ (selectCornersToCut count r).1, x < 4) := by
  unfold selectCornersToCut
  split
  · rename_i hc
    refine ⟨List.nodup_nil, ?_, by simp⟩
    have : count.toNat = 0 := by omega
    simp [this]
  · split
    · rename_i hc1 hc2
      dsimp only
      refine ⟨by decide, ?_, by decide⟩
      simp
      omega
    · rename_i hc1 hc2
      have h1 : 1 ≤ count := by omega
      have h4 : count ≤ 3 := by omega
      have hle : count.toNat ≤ [0, 1, 2, 3].length := by simp; omega
      have hrec := pickLoop_props count.toNat [0, 1, 2, 3] [] r h01 hle (by decide)
        List.nodup_nil (by simp) (by decide) (by simp)
      refine ⟨hrec.1, ?_, hrec.2.2⟩
      rw [hrec.2.1]
      simp
      omega

/-- All four corners are selected whenever `count >= 4`, without any RNG
draw — so any `count >= 4` behaves exactly like `count = 4`. -/
lemma selectCornersToCut_ge4 (count : Int) (r : Rng) (h : 4 ≤ count) :
    selectCornersToCut count r = ([0, 1, 2, 3], r) := by
  unfold selectCornersToCut
  rw [if_neg (by omega), if_pos h]

/-! ## Indexed-filter lemmas -/

lemma filterIdxAux_append (p : Nat → Bool) (l₁ l₂ : List α) : ∀ k,
    filterIdxAux p k (l₁ ++ l₂)
      = filterIdxAux p k l₁ ++ filterIdxAux p (k + l₁.length) l₂ := by
  induction l₁ with
  | nil => intro k; simp [filterIdxAux]
  | cons a t ih =>
    intro k
    simp only [List.cons_append, filterIdxAux, List.length_cons, List.append_eq]
    rw [ih (k + 1)]
    have h2 : k + 1 + t.length = k + (t.length + 1) := by omega
    rw [h2]
    split <;> simp

lemma filterIdxAux_all_true (p : Nat → Bool) : ∀ (l : List α) (k : Nat),
    (∀ i, k ≤ i → i < k + l.length → p i = true) → filterIdxAux p k l = l := by
  intro l
  induction l with
  | nil => intro k _; rfl
  | cons a t ih =>
    intro k hall
    unfold filterIdxAux
    rw [if_pos (hall k le_rfl (by simp)), ih (k + 1) ?_]
    intro i hi1 hi2
    refine hall i (by omega) (by simp at hi2 ⊢; omega)

/-- One corner block of the assembled polygon under the full-cut filter:
the corner survives iff its index is not selected, the trailing edge points
always survive. -/
lemma filter_cut_block (sel : List Nat) (pp j k : Nat) (c : α) (e : List α)
    (he : e.length = pp) (hk : k = j * (pp + 1)) :
    filterIdxAux (fun index => !(index % (pp + 1) == 0 && sel.contains (index / (pp + 1))))
        k (c :: e)
      = (if sel.contains j then e else c :: e) := by
  have hs : 0 < pp + 1 := Nat.succ_pos pp
  have hmod : k % (pp + 1) = 0 := by rw [hk]; exact Nat.mul_mod_left j (pp + 1)
  have hdiv : k / (pp + 1) = j := by rw [hk]; exact Nat.mul_div_cancel j hs
  unfold filterIdxAux
  have htail : filterIdxAux
      (fun index => !(index % (pp + 1) == 0 && sel.contains (index / (pp + 1))))
      (k + 1) e = e := by
    apply filterIdxAux_all_true
    intro i hi1 hi2
    have hkj : (pp + 1) * j = k := by rw [hk, Nat.mul_comm]
    have hrep : i = (i - k) + (pp + 1) * j := by rw [hkj]; omega
    have him : i % (pp + 1) = (i - k) % (pp + 1) := by
      conv_lhs => rw [hrep]
      exact Nat.add_mul_mod_self_left (i - k) (pp + 1) j
    have hlt : (i - k) < pp + 1 := by omega
    have hne : i % (pp + 1) ≠ 0 := by
      rw [him, Nat.mod_eq_of_lt hlt]
      omega
    simp [hne]
  rw [htail, hmod, hdiv]
  cases hmem : sel.contains j
  · simp [hmem]
  · simp [hmem]

/-- A nodup selection of indices below 4 has exactly as many elements as the
filter of `[0,1,2,3]` it induces. -/
lemma filter_contains_length (sel : List Nat) (hnd : sel.Nodup) (h4 : ∀ x ∈ sel, x < 4) :
    (([0, 1, 2, 3] : List Nat).filter (fun j => sel.contains j)).length = sel.length := by
  apply List.Perm.length_eq
  apply (List.perm_ext_iff_of_nodup (List.Nodup.filter _ (by decide)) hnd).mpr
  intro a
  simp only [List.mem_filter]
  constructor
  · rintro ⟨_, hc⟩
    simpa using hc
  · intro ha
    have hlt := h4 a ha
    refine ⟨by simp; omega, by simpa using ha⟩

/-- Length of the assembled polygon after the full corner cut: each selected
corner removes exactly one point. -/
lemma filter_cut_length (sel : List Nat) (pp : Nat) (c0 c1 c2 c3 : α)
    (e0 e1 e2 e3 : List α)
    (h0 : e0.length = pp) (h1 : e1.length = pp) (h2 : e2.length = pp) (h3 : e3.length = pp)
    (hnd : sel.Nodup) (h4 : ∀ x ∈ sel, x < 4) :
    (filterIdxAux (fun index => !(index % (pp + 1) == 0 && sel.contains (index / (pp + 1))))
        0 ((c0 :: e0) ++ ((c1 :: e1) ++ ((c2 :: e2) ++ (c3 :: e3))))).length
      = 4 * (pp + 1) - sel.length := by
  have e0l : (c0 :: e0).length = pp + 1 := by simp [h0]
  have e1l : (c1 :: e1).length = pp + 1 := by simp [h1]
  have e2l : (c2 :: e2).length = pp + 1 := by simp [h2]
  rw [filterIdxAux_append, filterIdxAux_append, filterIdxAux_append, e0l, e1l, e2l]
  rw [filter_cut_block sel pp 0 0 c0 e0 h0 (by ring),
    filter_cut_block sel pp 1 (0 + (pp + 1)) c1 e1 h1 (by ring),
    filter_cut_block sel pp 2 (0 + (pp + 1) + (pp + 1)) c2 e2 h2 (by ring),
    filter_cut_block sel pp 3 (0 + (pp + 1) + (pp + 1) + (pp + 1)) c3 e3 h3 (by ring)]
  have hcnt := filter_contains_length sel hnd h4
  simp only [List.length_append, apply_ite List.length, List.length_cons, h0, h1, h2, h3]
  by_cases hb0 : 0 ∈ sel <;> by_cases hb1 : 1 ∈ sel <;>
    by_cases hb2 : 2 ∈ sel <;> by_cases hb3 : 3 ∈ sel <;>
    simp [hb0, hb1, hb2, hb3, h0, h1, h2, h3, List.filter_cons] at hcnt ⊢ <;> omega

lemma insetPass_length (sel : List Nat) (stride : Nat) (inset : ℚ) (polygon : List Point) :
    (insetPass sel stride inset polygon).length = polygon.length := by
  unfold insetPass
  exact mapIdxAux_length _ _ _

/-- The point count of `generatePolygon` whenever `edges.deviation ≠ 0`:
`4*(points+1)` points, minus one per selected corner exactly when the cut is
a full cut. -/
lemma generatePolygon_length (sqrtFn : ℚ → ℚ) (w h : ℚ) (opts : Options) (oracle : Nat → ℚ)
    (hdev : opts.edges.deviation ≠ 0) (h01 : streamIn01 oracle) :
    (generatePolygon sqrtFn w h opts oracle).length
      = if 0 < opts.cutCorners ∧ 1 ≤ opts.cornerInset
        then 4 * (opts.edges.points + 1) - min opts.cutCorners.toNat 4
        else 4 * (opts.edges.points + 1) := by
  obtain ⟨p0, p1, p2, p3, r1, hc, hs1⟩ :=
    generateCorners_shape w h opts.corners (getRNG opts.seed oracle)
  obtain ⟨e0, e1, e2, e3, r2, hins, hl0, hl1, hl2, hl3, hs2⟩ :=
    insertEdgePoints_shape sqrtFn p0 p1 p2 p3 opts.edges r1 hdev
  have h01' : streamIn01 r2.stream := by
    rw [hs2, hs1]
    exact getRNG_in01 _ _ h01
  have hsel := selectCornersToCut_spec opts.cutCorners r2 h01'
  have hplen : ((p0 :: e0) ++ ((p1 :: e1) ++ ((p2 :: e2) ++ (p3 :: e3))) : List Point).length
      = 4 * (opts.edges.points + 1) := by
    simp [hl0, hl1, hl2, hl3]
    omega
  unfold generatePolygon
  dsimp only
  rw [hc]
  dsimp only
  rw [hins]
  dsimp only
  by_cases hcut : 0 < opts.cutCorners
  · rw [if_pos hcut]
    rcases hscc : selectCornersToCut opts.cutCorners r2 with ⟨sel, r3⟩
    rw [hscc] at hsel
    dsimp only at hsel
    dsimp only
    by_cases hinset : 1 ≤ opts.cornerInset
    · rw [if_pos hinset, if_pos (And.intro hcut hinset)]
      rw [filter_cut_length sel opts.edges.points p0 p1 p2 p3 e0 e1 e2 e3
        hl0 hl1 hl2 hl3 hsel.1 hsel.2.2]
      rw [hsel.2.1]
    · have hrhs : ¬(0 < opts.cutCorners ∧ 1 ≤ opts.cornerInset) := fun hh => hinset hh.2
      rw [if_neg hinset, if_neg hrhs]
      by_cases hpos : 0 < opts.cornerInset
      · rw [if_pos hpos, insetPass_length]
        exact hplen
      · rw [if_neg hpos]
        exact hplen
  · have hrhs : ¬(0 < opts.cutCorners ∧ 1 ≤ opts.cornerInset) := fun hh => hcut hh.1
    rw [if_neg hcut, if_neg hrhs]
    exact hplen

/-- With an integer seed the `Math.random` oracle is irrelevant: the stream
is the seeded mulberry32 stream. -/
lemma generatePolygon_seeded (sqrtFn : ℚ → ℚ) (w h : ℚ) (opts : Options)
    (o1 o2 : Nat → ℚ) (s : Int) (hseed : opts.seed = some s) :
    generatePolygon sqrtFn w h opts o1 = generatePolygon sqrtFn w h opts o2 := by
  unfold generatePolygon getRNG
  rw [hseed]

/-! ## Claim theorems -/

/-- C1 (amended: requires `edges.deviation ≠ 0`; with a zero deviation and
positive `edges.points` the edge short-circuit leaves only 4 points).  For
every width `W > 0`, height `H > 0`, integer seed and configuration with
`deviation ≠ 0`: with `cutCorners = 0` the polygon has `4 + 4*points`
points; with `cutCorners = k ≤ 4` and inset 1 it has `4 + 4*points - k`
points; with `0 < inset < 1` the count is unchanged from the
`cutCorners = 0` case. -/
theorem c1_point_count (sqrtFn : ℚ → ℚ) (w h : ℚ) (opts : Options) (oracle : Nat → ℚ)
    (_hw : 0 < w) (_hh : 0 < h) (h01 : streamIn01 oracle)
    (hdev : opts.edges.deviation ≠ 0) :
    (opts.cutCorners = 0 →
      (generatePolygon sqrtFn w h opts oracle).length = 4 + 4 * opts.edges.points)
    ∧ (∀ k : Nat, k ≤ 4 → opts.cutCorners = (k : Int) → opts.cornerInset = 1 →
      (generatePolygon sqrtFn w h opts oracle).length = 4 + 4 * opts.edges.points - k)
    ∧ (0 < opts.cornerInset → opts.cornerInset < 1 →
      (generatePolygon sqrtFn w h opts oracle).length = 4 + 4 * opts.edges.points) := by
  have hlen := generatePolygon_length sqrtFn w h opts oracle hdev h01
  rw [hlen]
  refine ⟨?_, ?_, ?_⟩
  · intro h0
    rw [if_neg (by rw [h0]; intro hh2; exact absurd hh2.1 (by norm_num))]
    omega
  · intro k hk4 hck hinset
    rcases Nat.eq_zero_or_pos k with hk0 | hkpos
    · subst hk0
      rw [if_neg (by rw [hck]; intro hh2; exact absurd hh2.1 (by norm_num))]
      omega
    · rw [if_pos ⟨by rw [hck]; exact_mod_cast hkpos, le_of_eq hinset.symm⟩]
      rw [hck]
      have htn : ((k : Int)).toNat = k := Int.toNat_natCast k
      rw [htn]
      omega
  · intro hgt hlt
    rw [if_neg (fun hh2 => absurd hh2.2 (not_le.mpr hlt))]
    omega

/-- Witness for C1 at a concrete input: `100×100`, seed 7, two edge points
per edge with deviation 3, two corners fully cut: `4 + 4*2 - 2 = 10`
points. -/
theorem c1_point_count_witness :
    0 < (100 : ℚ) ∧ streamIn01 oracle0 ∧ cfgW1.edges.deviation ≠ 0 ∧
    (generatePolygon sqrtStub 100 100 cfgW1 oracle0).length = 10 := by
  have h01 : streamIn01 oracle0 := fun n => ⟨le_refl 0, by norm_num [oracle0]⟩
  refine ⟨by norm_num, h01, by decide, ?_⟩
  have := (c1_point_count sqrtStub 100 100 cfgW1 oracle0 (by norm_num) (by norm_num)
    h01 (by decide)).2.1 2 (by norm_num) (by decide) (by decide)
  simpa using this

/-- C1 counterexample: the claim as stated fails when `edges.deviation = 0`
and `edges.points > 0` — with `cfgC1x` (one point per edge requested,
deviation 0, no cut) the polygon has 4 points, not `4 + 4*1 = 8`. -/
theorem c1_counterexample :
    cfgC1x.cutCorners = 0
    ∧ (generatePolygon sqrtStub 100 100 cfgC1x oracle0).length = 4
    ∧ (generatePolygon sqrtStub 100 100 cfgC1x oracle0).length
        ≠ 4 + 4 * cfgC1x.edges.points := by
  refine ⟨by decide, by decide, by decide⟩

/-- C3: for a fixed integer seed, `generatePolygon` is a deterministic
function of `(width, height, configuration, seed)` — the `Math.random`
oracle never enters the computation, so two calls with identical arguments
(and any ambient randomness) give identical point lists. -/
theorem c3_determinism (sqrtFn : ℚ → ℚ) (w h : ℚ) (opts : Options)
    (o1 o2 : Nat → ℚ) (s : Int) (hseed : opts.seed = some s) :
    generatePolygon sqrtFn w h opts o1 = generatePolygon sqrtFn w h opts o2 := by
  unfold generatePolygon getRNG
  rw [hseed]

/-- Witness for C3: seed 5 with two different ambient oracles. -/
theorem c3_determinism_witness :
    cfgW3.seed = some 5 ∧
    generatePolygon sqrtStub 100 80 cfgW3 oracle0
      = generatePolygon sqrtStub 100 80 cfgW3 oracleHalf :=
  ⟨by decide, c3_determinism sqrtStub 100 80 cfgW3 oracle0 oracleHalf 5 (by decide)⟩

/-- C4 (amended: only `cutCorners` and the chamfer/inset fraction are
effectively clamped; negative `edges.deviation` still generates deviating
edge points, and negative corner offsets invert the clamp bands instead of
acting as 0 — see the counterexample).  `generatePolygon` never throws, and
`cutCorners ≥ 4` behaves as `4`, `cutCorners ≤ 0` as `0`, an inset `≥ 1` as
`1`, and an inset `≤ 0` as `0`. -/
theorem c4_clamping (sqrtFn : ℚ → ℚ) (w h : ℚ) (opts : Options) (oracle : Nat → ℚ) :
    (4 ≤ opts.cutCorners →
      generatePolygon sqrtFn w h opts oracle
        = generatePolygon sqrtFn w h {opts with cutCorners := 4} oracle)
    ∧ (opts.cutCorners ≤ 0 →
      generatePolygon sqrtFn w h opts oracle
        = generatePolygon sqrtFn w h {opts with cutCorners := 0} oracle)
    ∧ (1 ≤ opts.cornerInset →
      generatePolygon sqrtFn w h opts oracle
        = generatePolygon sqrtFn w h {opts with cornerInset := 1} oracle)
    ∧ (opts.cornerInset ≤ 0 →
      generatePolygon sqrtFn w h opts oracle
        = generatePolygon sqrtFn w h {opts with cornerInset := 0} oracle) := by
  obtain ⟨p0, p1, p2, p3, r1, hc, hs1⟩ :=
    generateCorners_shape w h opts.corners (getRNG opts.seed oracle)
  refine ⟨?_, ?_, ?_, ?_⟩
  · intro h4
    unfold generatePolygon
    dsimp only
    rw [hc]
    dsimp only
    rcases hins : insertEdgePoints sqrtFn [p0, p1, p2, p3] opts.edges r1 with ⟨poly, r2⟩
    dsimp only
    have hg1 : (0 : Int) < opts.cutCorners := by omega
    have hg2 : (0 : Int) < 4 := by norm_num
    rw [if_pos hg1, if_pos hg2,
      selectCornersToCut_ge4 opts.cutCorners r2 h4, selectCornersToCut_ge4 4 r2 (by norm_num)]
  · intro h0
    unfold generatePolygon
    dsimp only
    rw [hc]
    dsimp only
    rcases hins : insertEdgePoints sqrtFn [p0, p1, p2, p3] opts.edges r1 with ⟨poly, r2⟩
    dsimp only
    have hg1 : ¬ (0 : Int) < opts.cutCorners := by omega
    have hg2 : ¬ (0 : Int) < 0 := by norm_num
    rw [if_neg hg1, if_neg hg2]
  · intro h1
    unfold generatePolygon
    dsimp only
    rw [hc]
    dsimp only
    rcases hins : insertEdgePoints sqrtFn [p0, p1, p2, p3] opts.edges r1 with ⟨poly, r2⟩
    dsimp only
    by_cases hcut : 0 < opts.cutCorners
    · rw [if_pos hcut, if_pos hcut]
      rcases hscc : selectCornersToCut opts.cutCorners r2 with ⟨sel, r3⟩
      dsimp only
      have hg2 : (1 : ℚ) ≤ 1 := le_refl 1
      rw [if_pos h1, if_pos hg2]
    · rw [if_neg hcut, if_neg hcut]
  · intro h0
    unfold generatePolygon
    dsimp only
    rw [hc]
    dsimp only
    rcases hins : insertEdgePoints sqrtFn [p0, p1, p2, p3] opts.edges r1 with ⟨poly, r2⟩
    dsimp only
    by_cases hcut : 0 < opts.cutCorners
    · rw [if_pos hcut, if_pos hcut]
      rcases hscc : selectCornersToCut opts.cutCorners r2 with ⟨sel, r3⟩
      dsimp only
      have hn1 : ¬ (1 : ℚ) ≤ opts.cornerInset := by linarith
      have hn1z : ¬ (1 : ℚ) ≤ (0 : ℚ) := by norm_num
      have hn0 : ¬ (0 : ℚ) < opts.cornerInset := by linarith
      have hn0z : ¬ (0 : ℚ) < (0 : ℚ) := by norm_num
      rw [if_neg hn1, if_neg hn1z, if_neg hn0, if_neg hn0z]
    · rw [if_neg hcut, if_neg hcut]

/-- Witness for C4: `cutCorners = 7` produces exactly the `cutCorners = 4`
polygon. -/
theorem c4_clamping_witness :
    4 ≤ cfgW4.cutCorners ∧
    generatePolygon sqrtStub 100 100 cfgW4 oracle0
      = generatePolygon sqrtStub 100 100 {cfgW4 with cutCorners := 4} oracle0 :=
  ⟨by decide, (c4_clamping sqrtStub 100 100 cfgW4 oracle0).1 (by decide)⟩

/-- C4 counterexample: a negative corner offset is *not* clamped to 0 — with
`corners.x = -5` the top-right corner clamps to `x = 110` on a 100-wide box
(the right clamp band inverts to `[110, 100]`), so the output differs from
the clamped configuration, which keeps `x = 100`. -/
theorem c4_counterexample :
    cfgC4zero = {cfgC4neg with corners := {cfgC4neg.corners with x := 0}} ∧
    ((generatePolygon sqrtStub 100 100 cfgC4neg oracle0).getD 1 dfltPt).x = some 110 ∧
    ((generatePolygon sqrtStub 100 100 cfgC4zero oracle0).getD 1 dfltPt).x = some 100 ∧
    generatePolygon sqrtStub 100 100 cfgC4neg oracle0
      ≠ generatePolygon sqrtStub 100 100 cfgC4zero oracle0 := by
  have h1 : ((generatePolygon sqrtStub 100 100 cfgC4neg oracle0).getD 1 dfltPt).x
      = some 110 := by
    norm_num [generatePolygon, getRNG, generateCorners, baseCorners, mapIdxRng, randomInRange,
      rngNext, clampCornerX, clampCornerY, jadd, jmin, jmax, insertEdgePoints, cfgC4neg,
      oracle0, dfltPt]
  have h2 : ((generatePolygon sqrtStub 100 100 cfgC4zero oracle0).getD 1 dfltPt).x
      = some 100 := by
    norm_num [generatePolygon, getRNG, generateCorners, baseCorners, mapIdxRng, randomInRange,
      rngNext, clampCornerX, clampCornerY, jadd, jmin, jmax, insertEdgePoints, cfgC4zero,
      oracle0, dfltPt]
  refine ⟨by decide, h1, h2, fun heq => ?_⟩
  rw [heq, h2] at h1
  exact absurd h1 (by decide)

/-- C2 (code evidence): `generatePolygon` has no dimension guard.  At
`width = 0` with one deviating edge point per edge the top edge is
zero-length, the perpendicular computation divides `0 / 0`, and the
returned polygon has 8 points whose edge points on the degenerate edges
carry `NaN` coordinates — not the 4 unmodified base corners and not
NaN-free, contradicting the claimed policy (the call still does not
throw: the embedding is total).  `sqrtStub 0 = 0` records that the sqrt
model agrees with `Math.sqrt` at the only relevant input. -/
theorem c2_nan_at_zero_width :
    sqrtStub 0 = 0
    ∧ (generatePolygon sqrtStub 0 100 cfgC2x oracle0).length = 8
    ∧ ((generatePolygon sqrtStub 0 100 cfgC2x oracle0).getD 1 dfltPt).x = none := by
  refine ⟨by norm_num [sqrtStub], ?_, ?_⟩ <;>
    norm_num [generatePolygon, getRNG, generateCorners, baseCorners, insertEdgePoints,
      edgeWalk, generateEdgePoints, getPositions_even, positionsEvenSpec, mapRng,
      randomInRange, rngNext, jadd, jsub, jmul, jneg, jdiv, jsqrt, sqrtStub, cfgC2x,
      oracle0, dfltPt, List.range_succ]

/-- C6: the three distributions produce exactly the positions the
specification states — `even` is `i/(N+1)` with no RNG draw, `random` is
`0.1 + rng()*0.8` sorted ascending (`n` draws), `weighted-center` is
`clamp(0.5 + (rng()-0.5)*0.6, 0.1, 0.9)` sorted ascending (`n` draws) —
and each result is monotonically non-decreasing. -/
theorem c6_distributions (n : Nat) (r : Rng) (_hn : 1 ≤ n) :
    (getPositions n "even" r = (positionsEvenSpec n, r)
      ∧ List.Sorted (· ≤ ·) (positionsEvenSpec n))
    ∧ (getPositions n "random" r = (positionsRandomSpec n r, rngAdvance r n)
      ∧ List.Sorted (· ≤ ·) (positionsRandomSpec n r))
    ∧ (getPositions n "weighted-center" r = (positionsWeightedSpec n r, rngAdvance r n)
      ∧ List.Sorted (· ≤ ·) (positionsWeightedSpec n r)) :=
  ⟨⟨getPositions_even n r, positionsEvenSpec_sorted n⟩,
   ⟨getPositions_random n r, positionsRandomSpec_sorted n r⟩,
   ⟨getPositions_weighted n r, positionsWeightedSpec_sorted n r⟩⟩

/-- Witness for C6 at `n = 2` with a concrete RNG state. -/
theorem c6_distributions_witness :
    1 ≤ 2 ∧
    ((getPositions 2 "even" rng0 = (positionsEvenSpec 2, rng0)
      ∧ List.Sorted (· ≤ ·) (positionsEvenSpec 2))
    ∧ (getPositions 2 "random" rng0 = (positionsRandomSpec 2 rng0, rngAdvance rng0 2)
      ∧ List.Sorted (· ≤ ·) (positionsRandomSpec 2 rng0))
    ∧ (getPositions 2 "weighted-center" rng0
        = (positionsWeightedSpec 2 rng0, rngAdvance rng0 2)
      ∧ List.Sorted (· ≤ ·) (positionsWeightedSpec 2 rng0))) :=
  ⟨by norm_num, c6_distributions 2 rng0 (by norm_num)⟩

/-- C7: with `edges.points = 0` (the `points <= 0` check on the declared
non-negative integer domain) or `edges.deviation = 0`, edge-point
generation returns no points and consumes no RNG draws — the state after
equals the state before — and whole-polygon insertion returns the corners
unchanged with the RNG untouched, so everything that draws afterwards is
unaffected by the edge options. -/
theorem c7_no_op_short_circuit (sqrtFn : ℚ → ℚ) (a b : Point) (corners : List Point)
    (eo : EdgeOptions) (r : Rng) (h : eo.points = 0 ∨ eo.deviation = 0) :
    generateEdgePoints sqrtFn a b eo r = ([], r)
    ∧ insertEdgePoints sqrtFn corners eo r = (corners, r) := by
  refine ⟨generateEdgePoints_nil sqrtFn a b eo r h, ?_⟩
  rcases h with h | h
  · exact insertEdgePoints_p0 sqrtFn corners eo r h
  · exact insertEdgePoints_dev0 sqrtFn corners eo r h

/-- Witness for C7: three points requested but deviation 0. -/
theorem c7_no_op_witness :
    ((⟨3, 0, "random"⟩ : EdgeOptions).points = 0 ∨ (⟨3, 0, "random"⟩ : EdgeOptions).deviation = 0)
    ∧ (generateEdgePoints sqrtStub ⟨some 1, some 2⟩ ⟨some 3, some 4⟩ ⟨3, 0, "random"⟩ rng0
        = ([], rng0)
      ∧ insertEdgePoints sqrtStub [⟨some 1, some 2⟩, ⟨some 3, some 4⟩] ⟨3, 0, "random"⟩ rng0
        = ([⟨some 1, some 2⟩, ⟨some 3, some 4⟩], rng0)) :=
  ⟨Or.inr rfl,
   c7_no_op_short_circuit sqrtStub ⟨some 1, some 2⟩ ⟨some 3, some 4⟩
     [⟨some 1, some 2⟩, ⟨some 3, some 4⟩] ⟨3, 0, "random"⟩ rng0 (Or.inr rfl)⟩

/-- C9 (amended: requires `edges.points = 0`; `edges.deviation = 0` with
positive `edges.points` is *not* sufficient — see the counterexample).
With no edge points, `cutCorners = 4` and a full inset, every point of the
4-corner polygon is a selected corner slot, so the result is empty. -/
theorem c9_full_cut_empty (sqrtFn : ℚ → ℚ) (w h : ℚ) (opts : Options) (oracle : Nat → ℚ)
    (hp : opts.edges.points = 0) (hcut : opts.cutCorners = 4)
    (hinset : 1 ≤ opts.cornerInset) :
    generatePolygon sqrtFn w h opts oracle = [] := by
  obtain ⟨p0, p1, p2, p3, r1, hc, _⟩ :=
    generateCorners_shape w h opts.corners (getRNG opts.seed oracle)
  unfold generatePolygon
  dsimp only
  rw [hc]
  dsimp only
  rw [insertEdgePoints_p0 sqrtFn _ _ _ hp]
  dsimp only
  rw [if_pos (by rw [hcut]; norm_num), hcut, selectCornersToCut_ge4 4 r1 (by norm_num)]
  dsimp only
  rw [if_pos hinset, hp]
  simp [filterIdxAux]

/-- Witness for C9: a displaced 4-corner polygon, all corners cut. -/
theorem c9_full_cut_empty_witness :
    cfgW9.edges.points = 0 ∧ cfgW9.cutCorners = 4 ∧ 1 ≤ cfgW9.cornerInset ∧
    generatePolygon sqrtStub 50 70 cfgW9 oracle0 = [] :=
  ⟨rfl, rfl, by norm_num [cfgW9],
   c9_full_cut_empty sqrtStub 50 70 cfgW9 oracle0 rfl rfl (by norm_num [cfgW9])⟩

/-- C9 counterexample: with `edges.points = 2` and `edges.deviation = 0`
the polygon going into the cut still has only the 4 corners, but the
stride is `points + 1 = 3`, so the full cut of all four corners removes
only the points at indices 0 and 3 — the result is `[TR, BR]`, not the
empty sequence. -/
theorem c9_counterexample :
    cfgC9x.cutCorners = 4 ∧ 1 ≤ cfgC9x.cornerInset ∧ cfgC9x.edges.deviation = 0
    ∧ generatePolygon sqrtStub 100 100 cfgC9x oracle0
        = [⟨some 100, some 0⟩, ⟨some 100, some 100⟩]
    ∧ generatePolygon sqrtStub 100 100 cfgC9x oracle0 ≠ [] := by
  refine ⟨by decide, by decide, by decide, by decide, by decide⟩

/-- C10: a zero deviation suppresses all edge-point insertion even when
`edges.points > 0`: with `cutCorners = 0` the polygon is exactly the 4
displaced corners. -/
theorem c10_deviation_zero (sqrtFn : ℚ → ℚ) (w h : ℚ) (opts : Options) (oracle : Nat → ℚ)
    (_hp : 0 < opts.edges.points) (hdev : opts.edges.deviation = 0)
    (hcut : opts.cutCorners = 0) :
    (generatePolygon sqrtFn w h opts oracle).length = 4 := by
  obtain ⟨p0, p1, p2, p3, r1, hc, _⟩ :=
    generateCorners_shape w h opts.corners (getRNG opts.seed oracle)
  unfold generatePolygon
  dsimp only
  rw [hc]
  dsimp only
  rw [insertEdgePoints_dev0 sqrtFn _ _ _ hdev]
  dsimp only
  rw [if_neg (by rw [hcut]; norm_num)]
  rfl

/-- Witness for C10: three points per edge requested, deviation 0. -/
theorem c10_deviation_zero_witness :
    0 < cfgW10.edges.points ∧ cfgW10.edges.deviation = 0 ∧ cfgW10.cutCorners = 0 ∧
    (generatePolygon sqrtStub 100 100 cfgW10 oracle0).length = 4 :=
  ⟨by norm_num [cfgW10], rfl, rfl,
   c10_deviation_zero sqrtStub 100 100 cfgW10 oracle0 (by norm_num [cfgW10]) rfl rfl⟩

/-! ## Clamp-band lemmas for C5 -/

lemma low_band (v m : ℚ) (hm : 0 ≤ m) :
    jsNumBetween 0 (some (max 0 (min v (m * 2)))) (2 * m) := by
  refine ⟨le_max_left 0 _, max_le (by linarith) ?_⟩
  calc min v (m * 2) ≤ m * 2 := min_le_right _ _
    _ ≤ 2 * m := by linarith

lemma high_band (v w m : ℚ) (hm : 0 ≤ m) :
    jsNumBetween (w - 2 * m) (some (max (w - m * 2) (min v w))) w := by
  constructor
  · calc w - 2 * m = w - m * 2 := by ring
      _ ≤ max (w - m * 2) (min v w) := le_max_left _ _
  · exact max_le (by linarith) (min_le_right _ _)

lemma clampX_left_band (v w m : ℚ) (j : Nat) (hm : 0 ≤ m) (hj : j = 0 ∨ j = 3) :
    jsNumBetween 0 (clampCornerX (some v) j w m) (2 * m) := by
  unfold clampCornerX
  rw [if_pos hj]
  simp only [jmin_some, jmax_some]
  exact low_band v m hm

lemma clampX_right_band (v w m : ℚ) (j : Nat) (hm : 0 ≤ m) (hj : ¬(j = 0 ∨ j = 3)) :
    jsNumBetween (w - 2 * m) (clampCornerX (some v) j w m) w := by
  unfold clampCornerX
  rw [if_neg hj]
  simp only [jmin_some, jmax_some]
  exact high_band v w m hm

lemma clampY_top_band (v h m : ℚ) (j : Nat) (hm : 0 ≤ m) (hj : j = 0 ∨ j = 1) :
    jsNumBetween 0 (clampCornerY (some v) j h m) (2 * m) := by
  unfold clampCornerY
  rw [if_pos hj]
  simp only [jmin_some, jmax_some]
  exact low_band v m hm

lemma clampY_bottom_band (v h m : ℚ) (j : Nat) (hm : 0 ≤ m) (hj : ¬(j = 0 ∨ j = 1)) :
    jsNumBetween (h - 2 * m) (clampCornerY (some v) j h m) h := by
  unfold clampCornerY
  rw [if_neg hj]
  simp only [jmin_some, jmax_some]
  exact high_band v h m hm

/-- C5: every corner returned by `generateCorners` lies in its quadrant's
clamp band: left corners have `x ∈ [0, 2*offsetX]`, right corners
`x ∈ [W - 2*offsetX, W]`, top corners `y ∈ [0, 2*offsetY]`, bottom corners
`y ∈ [H - 2*offsetY, H]` — for every RNG state, every `W > 0`, `H > 0`,
`offsetX ≥ 0`, `offsetY ≥ 0` and both `independent` modes. -/
theorem c5_clamp_bands (w h : ℚ) (co : CornerOptions) (r : Rng)
    (_hw : 0 < w) (_hh : 0 < h) (hx : 0 ≤ co.x) (hy : 0 ≤ co.y) :
    cornerBands w h co ((generateCorners w h co r).1) := by
  unfold generateCorners
  by_cases hz : co.x = 0 ∧ co.y = 0
  · rw [if_pos hz]
    obtain ⟨hzx, hzy⟩ := hz
    unfold cornerBands baseCorners jsNumBetween
    norm_num [hzx, hzy]
  · rw [if_neg hz]
    by_cases hi : co.independent = true
    · rw [if_pos hi]
      simp only [baseCorners, mapIdxRng, randomInRange, rngNext, jadd_some]
      unfold cornerBands
      simp only [List.getD_cons_zero, List.getD_cons_succ, List.length_cons, List.length_nil]
      refine ⟨by norm_num, clampX_left_band _ _ _ _ hx (by norm_num),
        clampY_top_band _ _ _ _ hy (by norm_num),
        clampX_right_band _ _ _ _ hx (by norm_num),
        clampY_top_band _ _ _ _ hy (by norm_num),
        clampX_right_band _ _ _ _ hx (by norm_num),
        clampY_bottom_band _ _ _ _ hy (by norm_num),
        clampX_left_band _ _ _ _ hx (by norm_num),
        clampY_bottom_band _ _ _ _ hy (by norm_num)⟩
    · rw [if_neg hi]
      simp only [baseCorners, mapIdxAux, randomInRange, rngNext, jadd_some]
      unfold cornerBands
      simp only [List.getD_cons_zero, List.getD_cons_succ, List.length_cons, List.length_nil]
      refine ⟨by norm_num, clampX_left_band _ _ _ _ hx (by norm_num),
        clampY_top_band _ _ _ _ hy (by norm_num),
        clampX_right_band _ _ _ _ hx (by norm_num),
        clampY_top_band _ _ _ _ hy (by norm_num),
        clampX_right_band _ _ _ _ hx (by norm_num),
        clampY_bottom_band _ _ _ _ hy (by norm_num),
        clampX_left_band _ _ _ _ hx (by norm_num),
        clampY_bottom_band _ _ _ _ hy (by norm_num)⟩

/-- Witness for C5: a `100×100` box with offsets `(5, 4)`. -/
theorem c5_clamp_bands_witness :
    0 < (100 : ℚ) ∧ 0 ≤ (⟨5, 4, true⟩ : CornerOptions).x ∧
    cornerBands 100 100 ⟨5, 4, true⟩ ((generateCorners 100 100 ⟨5, 4, true⟩ rng0).1) :=
  ⟨by norm_num, by norm_num,
   c5_clamp_bands 100 100 ⟨5, 4, true⟩ rng0 (by norm_num) (by norm_num)
     (by norm_num) (by norm_num)⟩

/-- C8: `generateCorners` consumes RNG draws exactly as specified — the
refinement equality with `generateCornersSpec` pins the zero-offset
short-circuit (base corners, no draw), the `independent` mode (one
`(dx, dy)` pair per corner, 8 draws, in order TL, TR, BR, BL) and the
uniform mode (a single pair, 2 draws, applied to all corners) — and the
specification's Example 1 holds: `generatePolygon` at `100×100` with no
displacement, no edge points and no cut returns exactly the 4 base
corners. -/
theorem c8_rng_accounting :
    (∀ (w h : ℚ) (co : CornerOptions) (r : Rng),
      generateCorners w h co r = generateCornersSpec w h co r)
    ∧ generatePolygon sqrtStub 100 100 cfgEx8 oracle0 = baseCorners 100 100 := by
  constructor
  · intro w h co r
    unfold generateCorners generateCornersSpec
    by_cases hz : co.x = 0 ∧ co.y = 0
    · rw [if_pos hz, if_pos hz]
    · rw [if_neg hz, if_neg hz]
      have h2 : r.idx + 1 + 1 = r.idx + 2 := by omega
      have h3 : r.idx + 2 + 1 = r.idx + 3 := by omega
      have h4 : r.idx + 3 + 1 = r.idx + 4 := by omega
      have h5 : r.idx + 4 + 1 = r.idx + 5 := by omega
      have h6 : r.idx + 5 + 1 = r.idx + 6 := by omega
      have h7 : r.idx + 6 + 1 = r.idx + 7 := by omega
      have h8 : r.idx + 7 + 1 = r.idx + 8 := by omega
      by_cases hi : co.independent = true
      · rw [if_pos hi, if_pos hi]
        simp only [baseCorners, mapIdxRng, randomInRange, rngNext, rngAdvance,
          dispCornerSpec, rirSpec, h2, h3, h4, h5, h6, h7, h8]
      · rw [if_neg hi, if_neg hi]
        simp only [baseCorners, mapIdxAux, randomInRange, rngNext, rngAdvance,
          dispCornerSpec, rirSpec, h2]
  · decide

end Wabi
